import Mathlib

/-!
# Verification of the `yolocrop` location resolver

Shallow embedding of `src/yolocrop/main.py` (functions `get_cached_path`,
`cached_download`, `get_stem_extension`, `get_location`).

Modelling decisions:

* Paths and URLs are `String`s; file contents are byte lists (`List Nat`).
* The filesystem is an association list from path to contents (`FS`).
  `Path.exists()` is `FS.fileExists`, `stat().st_size` is `FS.size`,
  writing a file replaces any previous entry, `unlink` removes it.
* External library effects that the repository merely calls are gathered in a
  `World` record of pure functions: `hashlib.md5(u.encode()).hexdigest()`
  becomes `World.md5` (an arbitrary deterministic digest function),
  `urllib.request.urlretrieve` becomes `World.retrieve` (`none` models the
  `except:` branch, `some b` a download whose body is `b`), and the
  `gzip.open`/`shutil.copyfileobj` streaming copy becomes `World.gunzip`
  (`Except.ok b` = decoded bytes `b` fully written; `Except.error pb` =
  decoding raised after writing the partial bytes `pb` to the destination,
  which `open(local_path, 'wb')` had already created).
* Python exceptions become an `Err` sum type; each constructor records the
  exact `raise` site of the source.
* Observable fetch / decompress operations are recorded in an event trace so
  that "performs zero network fetches" and "decompression runs" are statable.
-/

deriving instance DecidableEq for Except

/-- File contents: a list of bytes. -/
abbrev Bytes := List Nat

/-- The filesystem: an association list from path to file contents. -/
structure FS where
  files : List (String × Bytes)
deriving DecidableEq

/-- Contents at a path (`open(p).read()`), if the file exists. -/
def FS.lookup (fs : FS) (p : String) : Option Bytes :=
  List.lookup p fs.files

/-- Models `Path(p).exists()`. -/
def FS.fileExists (fs : FS) (p : String) : Bool :=
  (fs.lookup p).isSome

/-- Models `Path(p).stat().st_size` (0 when the file is absent; the source only
consults the size of paths it has checked to exist). -/
def FS.size (fs : FS) (p : String) : Nat :=
  ((fs.lookup p).getD []).length

/-- Remove every entry for path `p`. -/
def FS.erase (fs : FS) (p : String) : FS :=
  FS.mk (fs.files.filter (fun e => e.1 != p))

/-- Write file `p` with contents `b`, replacing any previous contents. -/
def FS.write (fs : FS) (p : String) (b : Bytes) : FS :=
  FS.mk ((p, b) :: (fs.erase p).files)

/-- Models `Path(p).unlink()`. -/
def FS.unlink (fs : FS) (p : String) : FS :=
  fs.erase p

/-- The exceptions raised by `main.py`, one constructor per `raise`/`assert`
site (plus the propagated gzip-decoding exception). -/
inductive Err where
  /-- Raised as `DownloadError` with message naming the url, main.py line 43. -/
  | downloadError (url : String)
  /-- Raised as `IOError` with message naming the local path, main.py line 46
  (the `MissingFileFailure` check of `cached_download`). -/
  | errorReading (path : String)
  /-- Raised as `IOError` naming the unreadable file, main.py line 89
  (the final `MissingFileFailure` validation of `get_location`). -/
  | cannotRead (path : String)
  /-- An exception raised by the gzip streaming copy (lines 77-78),
  propagated as-is. -/
  | gunzipFailure
  /-- Failure of `assert local_path.exists()`, main.py line 80. -/
  | assertionFailed
deriving DecidableEq

/-- Observable external operations, recorded in order. -/
inductive Ev where
  /-- The call `urllib.request.urlretrieve(url, target)` was made (line 41),
  whether or not it succeeded. -/
  | fetch (url : String) (target : String)
  /-- The gzip streaming copy from `src` into `dst` was started (lines 77-78). -/
  | decompress (src : String) (dst : String)
deriving DecidableEq

/-- The external libraries used by `main.py`, modelled as pure functions:
`md5` is `hashlib.md5(u.encode()).hexdigest()`, `retrieve u` is the body
downloaded by `urllib.request.urlretrieve` (`none` = the call raised), and
`gunzip b` is the result of gzip-decoding `b` (`Except.error pb` = the copy
raised after `pb` bytes had been written to the destination). -/
structure World where
  md5 : String → String
  retrieve : String → Option Bytes
  gunzip : Bytes → Except Bytes Bytes

/-- Helper `startsWithGo s p` : the char list `p` is an initial segment of `s`. -/
def startsWithGo : List Char → List Char → Bool
  | _, [] => true
  | [], _ :: _ => false
  | c :: cs, p :: ps => c == p && startsWithGo cs ps

/-- Python `s.startswith(pre)` (by code points). -/
def pyStartsWith (s pre : String) : Bool :=
  startsWithGo s.data pre.data

/-- Python `s.split("/")` on the underlying char list (single-character
separator, empty segments kept). -/
def splitSlash : List Char → List (List Char)
  | [] => [[]]
  | c :: rest =>
    match splitSlash rest with
    | [] => [[]]
    | h :: t => if c == '/' then [] :: h :: t else (c :: h) :: t

/-- Python `location.split("/")[-1]`. -/
def lastSegment (s : String) : String :=
  String.mk ((splitSlash s.data).getLastD [])

/-- Loop of `rfind`: index of the last occurrence of `c`, `acc` if none. -/
def rfindGo : List Char → Char → Nat → Int → Int
  | [], _, _, acc => acc
  | x :: xs, c, i, acc => rfindGo xs c (i + 1) (if x == c then (i : Int) else acc)

/-- Python `name.rfind(c)`: index of the last occurrence of `c` in `name`,
`-1` when there is none. -/
def rfind (s : String) (c : Char) : Int :=
  rfindGo s.data c 0 (-1)

/-- Python `s[:n]` (by code points). -/
def strTake (s : String) (n : Nat) : String :=
  String.mk (s.data.take n)

/-- Python `s[n:]` (by code points). -/
def strDrop (s : String) (n : Nat) : String :=
  String.mk (s.data.drop n)

/-- main.py lines 49-58: split `name` at the last `.` provided its index is
positive; otherwise the whole name is the stem and the extension is `.dat`. -/
def get_stem_extension (name : String) : String × String :=
  let extension_location := rfind name '.'
  if 0 < extension_location then
    (strTake name extension_location.toNat, strDrop name extension_location.toNat)
  else
    (name, ".dat")

/-- main.py lines 16-19: `cache_dir / filename`.  The `cache_dir or
Path(user_cache_dir("hespi"))` default and the `mkdir` are directory-level
effects outside the file map; `cacheDir` here is the resolved cache root. -/
def get_cached_path (filename : String) (cacheDir : String) : String :=
  cacheDir ++ "/" ++ filename

/-- main.py lines 45-46: the post-download existence/non-emptiness check of
`cached_download`. -/
def downloadCheck (fs : FS) (local_path : String) : Except Err Unit :=
  if !fs.fileExists local_path || fs.size local_path == 0 then
    Except.error (Err.errorReading local_path)
  else
    Except.ok ()

/-- main.py lines 22-46 (`cached_download`): download `url` to `local_path`
when the file is absent, empty, or `force` is set, then check the result.
Returns the outcome, the new filesystem, and the fetch events performed. -/
def cached_download (w : World) (url : String) (local_path : String)
    (force : Bool) (fs : FS) : Except Err Unit × FS × List Ev :=
  if (!fs.fileExists local_path || fs.size local_path == 0) || force then
    match w.retrieve url with
    | none => (Except.error (Err.downloadError url), fs, [Ev.fetch url local_path])
    | some b =>
      let fs2 := fs.write local_path b
      (downloadCheck fs2 local_path, fs2, [Ev.fetch url local_path])
  else
    (downloadCheck fs local_path, fs, [])

/-- main.py lines 88-89: the final existence/non-emptiness validation of
`get_location`, returning the validated path. -/
def finalCheck (fs : FS) (local_path : String) : Except Err String :=
  if !fs.fileExists local_path || fs.size local_path == 0 then
    Except.error (Err.cannotRead local_path)
  else
    Except.ok local_path

/-- main.py lines 74-81: the body of the gzip branch when the final file is
absent or `force` is set — download to the transient `.gz` path, stream
gzip-decoded bytes into the final path (`open(local_path, 'wb')` creates the
destination before the copy, so a decoding failure leaves whatever partial
bytes had been written), `assert local_path.exists()`, delete the transient. -/
def gz_fetch_decompress (w : World) (location : String) (local_path_gz : String)
    (local_path : String) (force : Bool) (fs : FS) : Except Err Unit × FS × List Ev :=
  match cached_download w location local_path_gz force fs with
  | (Except.error e, fs2, tr2) => (Except.error e, fs2, tr2)
  | (Except.ok _, fs2, tr2) =>
    match w.gunzip ((fs2.lookup local_path_gz).getD []) with
    | Except.error pb =>
      (Except.error Err.gunzipFailure, fs2.write local_path pb,
        tr2 ++ [Ev.decompress local_path_gz local_path])
    | Except.ok b =>
      let fs3 := fs2.write local_path b
      if fs3.fileExists local_path then
        (Except.ok (), fs3.unlink local_path_gz,
          tr2 ++ [Ev.decompress local_path_gz local_path])
      else
        (Except.error Err.assertionFailed, fs3,
          tr2 ++ [Ev.decompress local_path_gz local_path])

/-- main.py lines 61-91 (`get_location`): resolve a location specifier to a
local path.  Remote specifiers (prefix `http`) are cached under
`{stem}-{md5(url)}{extension}`; a `.gz` extension triggers the transient
download + decompress branch; every branch ends in the final validation.
Returns the outcome, the final filesystem, and the event trace. -/
def get_location (w : World) (location : String) (force : Bool)
    (cacheDir : String) (fs : FS) : Except Err String × FS × List Ev :=
  if pyStartsWith location "http" then
    let se := get_stem_extension (lastSegment location)
    let url_hash := w.md5 location
    if se.2 == ".gz" then
      let se2 := get_stem_extension se.1
      let local_path_gz := get_cached_path (se2.1 ++ "-" ++ url_hash ++ se2.2 ++ ".gz") cacheDir
      let local_path := get_cached_path (se2.1 ++ "-" ++ url_hash ++ se2.2) cacheDir
      if !fs.fileExists local_path || force then
        match gz_fetch_decompress w location local_path_gz local_path force fs with
        | (Except.error e, fs2, tr2) => (Except.error e, fs2, tr2)
        | (Except.ok _, fs2, tr2) => (finalCheck fs2 local_path, fs2, tr2)
      else
        (finalCheck fs local_path, fs, [])
    else
      let local_path := get_cached_path (se.1 ++ "-" ++ url_hash ++ se.2) cacheDir
      match cached_download w location local_path force fs with
      | (Except.error e, fs2, tr2) => (Except.error e, fs2, tr2)
      | (Except.ok _, fs2, tr2) => (finalCheck fs2 local_path, fs2, tr2)
  else
    (finalCheck fs location, fs, [])

/-- The cache-key triple `(stem, extension, hash)` derived from a URL
(main.py lines 64-65): the stem/extension split of the last path segment,
and the digest of the full URL string. -/
def deriveKey (md5v : String → String) (u : String) : String × String × String :=
  ((get_stem_extension (lastSegment u)).1, (get_stem_extension (lastSegment u)).2, md5v u)

/-- The final cached filename for a URL (main.py lines 70-71 / 83):
`{stem}-{hash}{extension}`, where for `.gz` URLs the split is re-applied to
the stem to recover the inner extension. -/
def finalFileName (md5v : String → String) (u : String) : String :=
  let se := get_stem_extension (lastSegment u)
  let url_hash := md5v u
  if se.2 == ".gz" then
    let se2 := get_stem_extension se.1
    se2.1 ++ "-" ++ url_hash ++ se2.2
  else
    se.1 ++ "-" ++ url_hash ++ se.2

/-! ## Basic lemmas about the filesystem model -/

lemma lookup_filter_erase (l : List (String × Bytes)) (p q : String) :
    List.lookup q (l.filter (fun e => e.1 != p)) =
      if q = p then none else List.lookup q l := by
  induction l with
  | nil => simp [List.lookup]
  | cons hd tl ih =>
    rcases hd with ⟨k, v⟩
    by_cases hk : k = p
    · subst hk
      simp only [List.filter_cons]
      have : ((k, v).1 != k) = false := by simp
      rw [this]
      simp only [Bool.false_eq_true, if_false]
      rw [ih]
      by_cases hq : q = k
      · simp [hq]
      · simp [hq, List.lookup, Ne.symm hq, beq_false_of_ne hq]
    · simp only [List.filter_cons]
      have : ((k, v).1 != p) = true := by simp [hk]
      rw [this]
      simp only [if_true]
      by_cases hq : q = k
      · subst hq
        simp [List.lookup, hk]
      · simp only [List.lookup, beq_false_of_ne hq]
        exact ih

lemma FS.lookup_erase (fs : FS) (p q : String) :
    (fs.erase p).lookup q = if q = p then none else fs.lookup q := by
  simp [FS.erase, FS.lookup, lookup_filter_erase]

lemma FS.lookup_write (fs : FS) (p : String) (b : Bytes) (q : String) :
    (fs.write p b).lookup q = if q = p then some b else fs.lookup q := by
  by_cases hq : q = p
  · subst hq
    simp [FS.write, FS.lookup, List.lookup]
  · simp only [FS.write, FS.lookup, List.lookup, beq_false_of_ne hq, if_neg hq]
    have := FS.lookup_erase fs p q
    simp only [FS.lookup] at this
    rw [this, if_neg hq]

lemma FS.lookup_unlink (fs : FS) (p q : String) :
    (fs.unlink p).lookup q = if q = p then none else fs.lookup q :=
  FS.lookup_erase fs p q

lemma FS.fileExists_write_self (fs : FS) (p : String) (b : Bytes) :
    (fs.write p b).fileExists p = true := by
  simp [FS.fileExists, FS.lookup_write]

lemma FS.size_write_self (fs : FS) (p : String) (b : Bytes) :
    (fs.write p b).size p = b.length := by
  simp [FS.size, FS.lookup_write]

lemma FS.fileExists_write_ne (fs : FS) (p : String) (b : Bytes) (q : String)
    (h : q ≠ p) : (fs.write p b).fileExists q = fs.fileExists q := by
  simp [FS.fileExists, FS.lookup_write, h]

lemma FS.size_write_ne (fs : FS) (p : String) (b : Bytes) (q : String)
    (h : q ≠ p) : (fs.write p b).size q = fs.size q := by
  simp [FS.size, FS.lookup_write, h]

lemma FS.fileExists_unlink_self (fs : FS) (p : String) :
    (fs.unlink p).fileExists p = false := by
  simp [FS.fileExists, FS.lookup_unlink]

lemma FS.fileExists_unlink_ne (fs : FS) (p q : String) (h : q ≠ p) :
    (fs.unlink p).fileExists q = fs.fileExists q := by
  simp [FS.fileExists, FS.lookup_unlink, h]

lemma FS.size_unlink_ne (fs : FS) (p q : String) (h : q ≠ p) :
    (fs.unlink p).size q = fs.size q := by
  simp [FS.size, FS.lookup_unlink, h]

/-! ## Basic lemmas about strings -/

lemma str_data_append (a b : String) : (a ++ b).data = a.data ++ b.data := by
  cases a; cases b; rfl

lemma str_append_assoc (a b c : String) : a ++ b ++ c = a ++ (b ++ c) := by
  cases a; cases b; cases c
  show String.mk _ = String.mk _
  simp [str_data_append]

lemma self_ne_append_gz (p : String) : p ≠ p ++ ".gz" := by
  intro h
  have hl := congrArg (fun s : String => s.data.length) h
  simp only [str_data_append] at hl
  simp at hl
/-- The shared absent-or-empty test `not path.exists() or stat().st_size == 0`,
as a Bool equation: it is false exactly when the file exists and is non-empty. -/
lemma check_cond_eq_false (a : Bool) (n : Nat) :
    (!a || n == 0) = false ↔ a = true ∧ n ≠ 0 := by
  cases a <;> simp

lemma check_cond_eq_true (a : Bool) (n : Nat) :
    (!a || n == 0) = true ↔ a = false ∨ n = 0 := by
  cases a <;> simp

lemma downloadCheck_eq_ok (fs : FS) (p : String) :
    downloadCheck fs p = Except.ok () ↔ fs.fileExists p = true ∧ fs.size p ≠ 0 := by
  unfold downloadCheck
  split
  · rename_i hc
    rw [check_cond_eq_true] at hc
    constructor
    · intro h
      exact absurd h (by simp)
    · intro hx
      rcases hc with h | h
      · rw [hx.1] at h
        cases h
      · exact absurd h hx.2
  · rename_i hc
    rw [Bool.not_eq_true, check_cond_eq_false] at hc
    simp [hc]

lemma downloadCheck_eq_error (fs : FS) (p : String) (e : Err) :
    downloadCheck fs p = Except.error e ↔
      e = Err.errorReading p ∧ (fs.fileExists p = false ∨ fs.size p = 0) := by
  unfold downloadCheck
  split
  · rename_i hc
    rw [check_cond_eq_true] at hc
    constructor
    · intro h
      injection h with h1
      exact ⟨h1.symm, hc⟩
    · intro hx
      rw [hx.1]
  · rename_i hc
    rw [Bool.not_eq_true, check_cond_eq_false] at hc
    constructor
    · intro h
      exact absurd h (by simp)
    · intro hx
      rcases hx.2 with h | h
      · rw [hc.1] at h
        cases h
      · exact absurd h hc.2

lemma finalCheck_eq_ok (fs : FS) (p q : String) :
    finalCheck fs p = Except.ok q ↔
      q = p ∧ fs.fileExists p = true ∧ fs.size p ≠ 0 := by
  unfold finalCheck
  split
  · rename_i hc
    rw [check_cond_eq_true] at hc
    constructor
    · intro h
      exact absurd h (by simp)
    · intro hx
      rcases hc with h | h
      · rw [hx.2.1] at h
        cases h
      · exact absurd h hx.2.2
  · rename_i hc
    rw [Bool.not_eq_true, check_cond_eq_false] at hc
    constructor
    · intro h
      injection h with h1
      exact ⟨h1.symm, hc⟩
    · intro hx
      rw [hx.1]

lemma finalCheck_eq_error (fs : FS) (p : String) (e : Err) :
    finalCheck fs p = Except.error e ↔
      e = Err.cannotRead p ∧ (fs.fileExists p = false ∨ fs.size p = 0) := by
  unfold finalCheck
  split
  · rename_i hc
    rw [check_cond_eq_true] at hc
    constructor
    · intro h
      injection h with h1
      exact ⟨h1.symm, hc⟩
    · intro hx
      rw [hx.1]
  · rename_i hc
    rw [Bool.not_eq_true, check_cond_eq_false] at hc
    constructor
    · intro h
      exact absurd h (by simp)
    · intro hx
      rcases hx.2 with h | h
      · rw [hc.1] at h
        cases h
      · exact absurd h hc.2

/-- Complete case analysis of `cached_download`: either the download was
skipped (file present, non-empty, no force), or a fetch was attempted and
either raised or wrote the retrieved body. -/
lemma cached_download_spec (w : World) (url p : String) (force : Bool) (fs : FS)
    (r : Except Err Unit) (fs' : FS) (tr : List Ev)
    (h : cached_download w url p force fs = (r, fs', tr)) :
    (fs' = fs ∧ tr = [] ∧ r = Except.ok () ∧
      fs.fileExists p = true ∧ fs.size p ≠ 0 ∧ force = false) ∨
    (tr = [Ev.fetch url p] ∧
      ((w.retrieve url = none ∧ fs' = fs ∧ r = Except.error (Err.downloadError url)) ∨
       (∃ b, w.retrieve url = some b ∧ fs' = fs.write p b ∧ r = downloadCheck fs' p))) := by
  unfold cached_download at h
  split at h
  · split at h
    · rename_i hret
      injection h with h1 h2
      injection h2 with h2 h3
      right
      exact ⟨h3.symm, Or.inl ⟨hret, h2.symm, h1.symm⟩⟩
    · rename_i b hret
      injection h with h1 h2
      injection h2 with h2 h3
      right
      refine ⟨h3.symm, Or.inr ⟨b, hret, h2.symm, ?_⟩⟩
      rw [← h1, h2]
  · rename_i hcond
    have hc : (!fs.fileExists p || fs.size p == 0 || force) = false :=
      Bool.eq_false_iff.mpr hcond
    rw [Bool.or_eq_false_iff, check_cond_eq_false] at hc
    obtain ⟨⟨hex, hsz⟩, hforce⟩ := hc
    injection h with h1 h2
    injection h2 with h2 h3
    left
    refine ⟨h2.symm, h3.symm, ?_, hex, hsz, hforce⟩
    rw [← h1, (downloadCheck_eq_ok fs p).mpr ⟨hex, hsz⟩]

/-- Corollary: a successful `cached_download` leaves the target present and
non-empty. -/
lemma cached_download_ok (w : World) (url p : String) (force : Bool) (fs : FS)
    (u : Unit) (fs' : FS) (tr : List Ev)
    (h : cached_download w url p force fs = (Except.ok u, fs', tr)) :
    fs'.fileExists p = true ∧ fs'.size p ≠ 0 := by
  rcases cached_download_spec w url p force fs _ _ _ h with
    ⟨hfs, _, _, hex, hsz, _⟩ | ⟨_, ⟨_, _, hr⟩ | ⟨b, _, _, hr⟩⟩
  · rw [hfs]
    exact ⟨hex, hsz⟩
  · cases hr
  · exact (downloadCheck_eq_ok fs' p).mp hr.symm

/-- Corollary: the errors of `cached_download`, and what they imply about the
returned filesystem. -/
lemma cached_download_error (w : World) (url p : String) (force : Bool) (fs : FS)
    (e : Err) (fs' : FS) (tr : List Ev)
    (h : cached_download w url p force fs = (Except.error e, fs', tr)) :
    e = Err.downloadError url ∨
      (e = Err.errorReading p ∧ (fs'.fileExists p = false ∨ fs'.size p = 0)) := by
  rcases cached_download_spec w url p force fs _ _ _ h with
    ⟨_, _, hr, _⟩ | ⟨_, ⟨_, _, hr⟩ | ⟨b, _, _, hr⟩⟩
  · cases hr
  · injection hr with h1
    exact Or.inl h1
  · right
    exact (downloadCheck_eq_error fs' p e).mp hr.symm

/-- Corollary: the fetch events of `cached_download`. -/
lemma cached_download_trace (w : World) (url p : String) (force : Bool) (fs : FS)
    (r : Except Err Unit) (fs' : FS) (tr : List Ev)
    (h : cached_download w url p force fs = (r, fs', tr)) :
    tr = [] ∨ tr = [Ev.fetch url p] := by
  rcases cached_download_spec w url p force fs _ _ _ h with ⟨_, ht, _⟩ | ⟨ht, _⟩
  · exact Or.inl ht
  · exact Or.inr ht

/-- Corollary: `cached_download` with `force = true` always records a fetch. -/
lemma cached_download_force_trace (w : World) (url p : String) (fs : FS)
    (r : Except Err Unit) (fs' : FS) (tr : List Ev)
    (h : cached_download w url p true fs = (r, fs', tr)) :
    tr = [Ev.fetch url p] := by
  rcases cached_download_spec w url p true fs _ _ _ h with ⟨_, _, _, _, _, hf⟩ | ⟨ht, _⟩
  · cases hf
  · exact ht

/-- Case analysis of a successful gzip fetch+decompress: the download
succeeded, decoding succeeded, the decoded bytes were written to the final
path and the transient file was deleted. -/
lemma gzfd_ok (w : World) (loc gzp lp : String) (force : Bool) (fs : FS)
    (u : Unit) (fs2 : FS) (tr2 : List Ev)
    (h : gz_fetch_decompress w loc gzp lp force fs = (Except.ok u, fs2, tr2)) :
    ∃ fsd trd b, cached_download w loc gzp force fs = (Except.ok (), fsd, trd) ∧
      w.gunzip ((fsd.lookup gzp).getD []) = Except.ok b ∧
      fs2 = (fsd.write lp b).unlink gzp ∧
      tr2 = trd ++ [Ev.decompress gzp lp] := by
  unfold gz_fetch_decompress at h
  split at h
  · injection h with h1 h2
    cases h1
  · rename_i val fsd trd heq
    split at h
    · injection h with h1 h2
      cases h1
    · rename_i b hgz
      simp only [FS.fileExists_write_self, if_true] at h
      injection h with h1 h2
      injection h2 with h2 h3
      exact ⟨fsd, trd, b, by rw [heq], hgz, h2.symm, h3.symm⟩

/-- Case analysis of a failed gzip fetch+decompress. -/
lemma gzfd_error (w : World) (loc gzp lp : String) (force : Bool) (fs : FS)
    (e : Err) (fs2 : FS) (tr2 : List Ev)
    (h : gz_fetch_decompress w loc gzp lp force fs = (Except.error e, fs2, tr2)) :
    cached_download w loc gzp force fs = (Except.error e, fs2, tr2) ∨
      e = Err.gunzipFailure ∨ e = Err.assertionFailed := by
  unfold gz_fetch_decompress at h
  split at h
  · rename_i e' fsd trd heq
    injection h with h1 h2
    injection h2 with h2 h3
    injection h1 with h1
    left
    rw [heq, h1, h2, h3]
  · split at h
    · injection h with h1 h2
      injection h1 with h1
      exact Or.inr (Or.inl h1.symm)
    · simp only [FS.fileExists_write_self, if_true] at h
      injection h with h1 h2
      cases h1

/-- Every event recorded by `gz_fetch_decompress` is either the fetch of the
transient path or the decompress from the transient to the final path. -/
lemma gzfd_trace (w : World) (loc gzp lp : String) (force : Bool) (fs : FS)
    (r : Except Err Unit) (fs2 : FS) (tr2 : List Ev)
    (h : gz_fetch_decompress w loc gzp lp force fs = (r, fs2, tr2)) :
    (∀ u' t, Ev.fetch u' t ∈ tr2 → u' = loc ∧ t = gzp) ∧
    (∀ g d, Ev.decompress g d ∈ tr2 → g = gzp ∧ d = lp) := by
  unfold gz_fetch_decompress at h
  split at h
  · rename_i e' fsd trd heq
    injection h with h1 h2
    injection h2 with h2 h3
    rcases cached_download_trace w loc gzp force fs _ _ _ heq with ht | ht <;>
        rw [← h3, ht] <;> constructor
    · intro u' t hm
      simp at hm
    · intro g d hm
      simp at hm
    · intro u' t hm
      simp at hm
      exact hm
    · intro g d hm
      simp at hm
  · rename_i val fsd trd heq
    have htr : tr2 = trd ++ [Ev.decompress gzp lp] := by
      split at h
      · injection h with h1 h2
        injection h2 with h2 h3
        exact h3.symm
      · simp only [FS.fileExists_write_self, if_true] at h
        injection h with h1 h2
        injection h2 with h2 h3
        exact h3.symm
    rcases cached_download_trace w loc gzp force fs _ _ _ heq with ht | ht <;>
        rw [htr, ht] <;> constructor
    · intro u' t hm
      simp at hm
    · intro g d hm
      simp at hm
      exact hm
    · intro u' t hm
      simp at hm
      exact hm
    · intro g d hm
      simp at hm
      exact hm

/-! ## The resolved cache path of a URL, and the branch structure of
`get_location` -/

/-- The local path a remote URL resolves to: the cache directory joined with
`finalFileName`. -/
def resolved_path (w : World) (loc cd : String) : String :=
  get_cached_path (finalFileName w.md5 loc) cd

lemma bool_not_or_eq_true (a b : Bool) :
    (!a || b) = true ↔ a = false ∨ b = true := by
  cases a <;> simp

lemma bool_not_or_eq_false (a b : Bool) :
    (!a || b) = false ↔ a = true ∧ b = false := by
  cases a <;> simp

lemma gz_filename_eq (w : World) (loc : String)
    (hgz : ((get_stem_extension (lastSegment loc)).2 == ".gz") = true) :
    finalFileName w.md5 loc =
      (get_stem_extension ((get_stem_extension (lastSegment loc)).1)).1 ++ "-" ++
        w.md5 loc ++ (get_stem_extension ((get_stem_extension (lastSegment loc)).1)).2 := by
  simp only [finalFileName, hgz]
  simp

lemma nongz_filename_eq (w : World) (loc : String)
    (hgz : ((get_stem_extension (lastSegment loc)).2 == ".gz") = false) :
    finalFileName w.md5 loc =
      (get_stem_extension (lastSegment loc)).1 ++ "-" ++ w.md5 loc ++
        (get_stem_extension (lastSegment loc)).2 := by
  simp only [finalFileName, hgz]
  simp

lemma gz_final_eq (w : World) (loc cd : String)
    (hgz : ((get_stem_extension (lastSegment loc)).2 == ".gz") = true) :
    get_cached_path
        ((get_stem_extension ((get_stem_extension (lastSegment loc)).1)).1 ++ "-" ++
          w.md5 loc ++ (get_stem_extension ((get_stem_extension (lastSegment loc)).1)).2) cd
      = resolved_path w loc cd := by
  rw [resolved_path, gz_filename_eq w loc hgz]

lemma gz_transient_eq (w : World) (loc cd : String)
    (hgz : ((get_stem_extension (lastSegment loc)).2 == ".gz") = true) :
    get_cached_path
        ((get_stem_extension ((get_stem_extension (lastSegment loc)).1)).1 ++ "-" ++
          w.md5 loc ++ (get_stem_extension ((get_stem_extension (lastSegment loc)).1)).2 ++
          ".gz") cd
      = resolved_path w loc cd ++ ".gz" := by
  rw [resolved_path, gz_filename_eq w loc hgz]
  simp [get_cached_path, str_append_assoc]

lemma nongz_final_eq (w : World) (loc cd : String)
    (hgz : ((get_stem_extension (lastSegment loc)).2 == ".gz") = false) :
    get_cached_path
        ((get_stem_extension (lastSegment loc)).1 ++ "-" ++ w.md5 loc ++
          (get_stem_extension (lastSegment loc)).2) cd
      = resolved_path w loc cd := by
  rw [resolved_path, nongz_filename_eq w loc hgz]

/-- Complete branch analysis of `get_location`: the local branch, the two
outcomes of the plain remote branch, and the three outcomes of the gzip
branch (cache hit, failed fetch+decompress, successful fetch+decompress). -/
lemma get_location_cases (w : World) (loc : String) (force : Bool) (cd : String)
    (fs : FS) (r : Except Err String) (fs' : FS) (tr : List Ev)
    (h : get_location w loc force cd fs = (r, fs', tr)) :
    (pyStartsWith loc "http" = false ∧
      r = finalCheck fs loc ∧ fs' = fs ∧ tr = []) ∨
    (pyStartsWith loc "http" = true ∧
      ((get_stem_extension (lastSegment loc)).2 == ".gz") = false ∧
      ((∃ e, cached_download w loc (resolved_path w loc cd) force fs =
          (Except.error e, fs', tr) ∧ r = Except.error e) ∨
       (cached_download w loc (resolved_path w loc cd) force fs =
          (Except.ok (), fs', tr) ∧ r = finalCheck fs' (resolved_path w loc cd)))) ∨
    (pyStartsWith loc "http" = true ∧
      ((get_stem_extension (lastSegment loc)).2 == ".gz") = true ∧
      ((fs.fileExists (resolved_path w loc cd) = true ∧ force = false ∧
        r = finalCheck fs (resolved_path w loc cd) ∧ fs' = fs ∧ tr = []) ∨
       ((fs.fileExists (resolved_path w loc cd) = false ∨ force = true) ∧
        ((∃ e, gz_fetch_decompress w loc (resolved_path w loc cd ++ ".gz")
              (resolved_path w loc cd) force fs = (Except.error e, fs', tr) ∧
            r = Except.error e) ∨
         (gz_fetch_decompress w loc (resolved_path w loc cd ++ ".gz")
              (resolved_path w loc cd) force fs = (Except.ok (), fs', tr) ∧
            r = finalCheck fs' (resolved_path w loc cd)))))) := by
  by_cases hh : pyStartsWith loc "http" = true
  · simp only [get_location] at h
    rw [if_pos hh] at h
    by_cases hgz : ((get_stem_extension (lastSegment loc)).2 == ".gz") = true
    · rw [if_pos hgz, gz_transient_eq w loc cd hgz, gz_final_eq w loc cd hgz] at h
      right; right
      refine ⟨hh, hgz, ?_⟩
      split at h
      · rename_i hcond
        rw [bool_not_or_eq_true] at hcond
        right
        refine ⟨hcond, ?_⟩
        split at h
        · rename_i e fs2 tr2 heq
          injection h with h1 h2
          injection h2 with h2 h3
          left
          exact ⟨e, by rw [heq, h2, h3], h1.symm⟩
        · rename_i val fs2 tr2 heq
          injection h with h1 h2
          injection h2 with h2 h3
          right
          refine ⟨by rw [heq, h2, h3], ?_⟩
          rw [← h1, h2]
      · rename_i hcond
        have hc := Bool.eq_false_iff.mpr hcond
        rw [bool_not_or_eq_false] at hc
        left
        injection h with h1 h2
        injection h2 with h2 h3
        exact ⟨hc.1, hc.2, h1.symm, h2.symm, h3.symm⟩
    · rw [if_neg hgz, nongz_final_eq w loc cd (Bool.eq_false_iff.mpr hgz)] at h
      right; left
      refine ⟨hh, Bool.eq_false_iff.mpr hgz, ?_⟩
      split at h
      · rename_i e fs2 tr2 heq
        injection h with h1 h2
        injection h2 with h2 h3
        left
        exact ⟨e, by rw [heq, h2, h3], h1.symm⟩
      · rename_i val fs2 tr2 heq
        injection h with h1 h2
        injection h2 with h2 h3
        right
        refine ⟨by rw [heq, h2, h3], ?_⟩
        rw [← h1, h2]
  · simp only [get_location] at h
    rw [if_neg hh] at h
    left
    injection h with h1 h2
    injection h2 with h2 h3
    exact ⟨Bool.eq_false_iff.mpr hh, h1.symm, h2.symm, h3.symm⟩

/-! ## Leaf helpers for the per-claim theorems -/

lemma finalCheck_claims (fs' : FS) (lp : String) (r : Except Err String)
    (hr : r = finalCheck fs' lp) :
    (∀ p, r = Except.ok p → fs'.fileExists p = true ∧ fs'.size p ≠ 0) ∧
    (∀ p, r = Except.error (Err.cannotRead p) →
      fs'.fileExists p = false ∨ fs'.size p = 0) ∧
    (∀ p, r = Except.error (Err.errorReading p) →
      fs'.fileExists p = false ∨ fs'.size p = 0) := by
  subst hr
  refine ⟨?_, ?_, ?_⟩
  · intro p hp
    obtain ⟨hq, hex, hsz⟩ := (finalCheck_eq_ok fs' lp p).mp hp
    rw [hq]
    exact ⟨hex, hsz⟩
  · intro p hp
    obtain ⟨he, hm⟩ := (finalCheck_eq_error fs' lp _).mp hp
    injection he with he1
    rw [he1]
    exact hm
  · intro p hp
    obtain ⟨he, hm⟩ := (finalCheck_eq_error fs' lp _).mp hp
    cases he

lemma cd_error_claims (w : World) (url lp : String) (force : Bool) (fs0 : FS)
    (e : Err) (fs' : FS) (tr0 : List Ev)
    (hcd : cached_download w url lp force fs0 = (Except.error e, fs', tr0))
    (r : Except Err String) (hr : r = Except.error e) :
    (∀ p, r = Except.ok p → fs'.fileExists p = true ∧ fs'.size p ≠ 0) ∧
    (∀ p, r = Except.error (Err.cannotRead p) →
      fs'.fileExists p = false ∨ fs'.size p = 0) ∧
    (∀ p, r = Except.error (Err.errorReading p) →
      fs'.fileExists p = false ∨ fs'.size p = 0) := by
  subst hr
  rcases cached_download_error w url lp force fs0 e fs' tr0 hcd with hD | ⟨hE, hm⟩
  · subst hD
    refine ⟨?_, ?_, ?_⟩
    · intro p hp
      cases hp
    · intro p hp
      injection hp with h1
      cases h1
    · intro p hp
      injection hp with h1
      cases h1
  · subst hE
    refine ⟨?_, ?_, ?_⟩
    · intro p hp
      cases hp
    · intro p hp
      injection hp with h1
      cases h1
    · intro p hp
      injection hp with h1
      injection h1 with h2
      rw [← h2]
      exact hm

lemma misc_error_claims (e : Err) (fs' : FS) (r : Except Err String)
    (hr : r = Except.error e)
    (hK : e = Err.gunzipFailure ∨ e = Err.assertionFailed) :
    (∀ p, r = Except.ok p → fs'.fileExists p = true ∧ fs'.size p ≠ 0) ∧
    (∀ p, r = Except.error (Err.cannotRead p) →
      fs'.fileExists p = false ∨ fs'.size p = 0) ∧
    (∀ p, r = Except.error (Err.errorReading p) →
      fs'.fileExists p = false ∨ fs'.size p = 0) := by
  subst hr
  rcases hK with hK | hK <;> subst hK <;> refine ⟨?_, ?_, ?_⟩ <;> intro p hp
  · cases hp
  · injection hp with h1
    cases h1
  · injection hp with h1
    cases h1
  · cases hp
  · injection hp with h1
    cases h1
  · injection hp with h1
    cases h1

/-- C1.  Whenever `get_location` returns successfully, the returned path
exists with non-zero size in the final filesystem; and whenever it raises
either of its `IOError`s (`MissingFileFailure`), the path named by the error
is indeed absent or empty in the filesystem at that moment — in every branch
the final validation refuses to return a missing or empty path. -/
theorem spec_C1 (w : World) (location : String) (force : Bool)
    (cacheDir : String) (fs : FS) (r : Except Err String) (fs' : FS) (tr : List Ev)
    (h : get_location w location force cacheDir fs = (r, fs', tr)) :
    (∀ p, r = Except.ok p → fs'.fileExists p = true ∧ fs'.size p ≠ 0) ∧
    (∀ p, r = Except.error (Err.cannotRead p) →
      fs'.fileExists p = false ∨ fs'.size p = 0) ∧
    (∀ p, r = Except.error (Err.errorReading p) →
      fs'.fileExists p = false ∨ fs'.size p = 0) := by
  rcases get_location_cases w location force cacheDir fs r fs' tr h with
    ⟨_, hr, hfs, _⟩ | ⟨_, _, hcase⟩ | ⟨_, _, hcase⟩
  · subst hfs
    exact finalCheck_claims fs' location r hr
  · rcases hcase with ⟨e, hcd, hr⟩ | ⟨hcd, hr⟩
    · exact cd_error_claims w location (resolved_path w location cacheDir) force fs
        e fs' tr hcd r hr
    · exact finalCheck_claims fs' (resolved_path w location cacheDir) r hr
  · rcases hcase with ⟨_, _, hr, hfs, _⟩ | ⟨_, ⟨e, hgz, hr⟩ | ⟨hgz, hr⟩⟩
    · subst hfs
      exact finalCheck_claims fs' (resolved_path w location cacheDir) r hr
    · rcases gzfd_error w location (resolved_path w location cacheDir ++ ".gz")
        (resolved_path w location cacheDir) force fs e fs' tr hgz with hcd | hK
      · exact cd_error_claims w location (resolved_path w location cacheDir ++ ".gz")
          force fs e fs' tr hcd r hr
      · exact misc_error_claims e fs' r hr hK
    · exact finalCheck_claims fs' (resolved_path w location cacheDir) r hr

/-- Facts about every successful run: the returned path exists, is non-empty,
and (for remote specifiers) equals the derived cache path. -/
lemma get_location_ok_facts (w : World) (loc : String) (force : Bool) (cd : String)
    (fs : FS) (p : String) (fs' : FS) (tr : List Ev)
    (h : get_location w loc force cd fs = (Except.ok p, fs', tr)) :
    fs'.fileExists p = true ∧ fs'.size p ≠ 0 ∧
      (pyStartsWith loc "http" = true → p = resolved_path w loc cd) := by
  rcases get_location_cases w loc force cd fs _ _ _ h with
    ⟨hlocal, hr, hfs, _⟩ | ⟨hh, _, hcase⟩ | ⟨hh, _, hcase⟩
  · obtain ⟨hq, hex, hsz⟩ := (finalCheck_eq_ok _ _ _).mp hr.symm
    subst hfs
    rw [hq]
    refine ⟨hex, hsz, ?_⟩
    intro hh'
    rw [hlocal] at hh'
    cases hh'
  · rcases hcase with ⟨e, _, hr⟩ | ⟨_, hr⟩
    · cases hr
    · obtain ⟨hq, hex, hsz⟩ := (finalCheck_eq_ok _ _ _).mp hr.symm
      rw [hq]
      exact ⟨hex, hsz, fun _ => rfl⟩
  · rcases hcase with ⟨_, _, hr, hfs, _⟩ | ⟨_, ⟨e, _, hr⟩ | ⟨_, hr⟩⟩
    · subst hfs
      obtain ⟨hq, hex, hsz⟩ := (finalCheck_eq_ok _ _ _).mp hr.symm
      rw [hq]
      exact ⟨hex, hsz, fun _ => rfl⟩
    · cases hr
    · obtain ⟨hq, hex, hsz⟩ := (finalCheck_eq_ok _ _ _).mp hr.symm
      rw [hq]
      exact ⟨hex, hsz, fun _ => rfl⟩

/-- Every fetch event of a `get_location` run downloads the requested URL,
into the transient `.gz` path in the gzip branch and into the final cache
path otherwise. -/
lemma get_location_fetch_targets (w : World) (loc : String) (force : Bool)
    (cd : String) (fs : FS) (r : Except Err String) (fs' : FS) (tr : List Ev)
    (h : get_location w loc force cd fs = (r, fs', tr)) :
    ∀ u' t, Ev.fetch u' t ∈ tr → u' = loc ∧
      ((((get_stem_extension (lastSegment loc)).2 == ".gz") = true ∧
        t = resolved_path w loc cd ++ ".gz") ∨
       (((get_stem_extension (lastSegment loc)).2 == ".gz") = false ∧
        t = resolved_path w loc cd)) := by
  rcases get_location_cases w loc force cd fs _ _ _ h with
    ⟨_, _, _, htr⟩ | ⟨_, hgz, hcase⟩ | ⟨_, hgz, hcase⟩
  · subst htr
    intro u' t hm
    simp at hm
  · have hcd : ∃ q, cached_download w loc (resolved_path w loc cd) force fs =
        (q, fs', tr) := by
      rcases hcase with ⟨e, hcd, _⟩ | ⟨hcd, _⟩
      · exact ⟨Except.error e, hcd⟩
      · exact ⟨Except.ok (), hcd⟩
    obtain ⟨q, hcd⟩ := hcd
    intro u' t hm
    rcases cached_download_trace w loc (resolved_path w loc cd) force fs q fs' tr hcd with
      ht | ht
    · subst ht
      simp at hm
    · subst ht
      simp at hm
      exact ⟨hm.1, Or.inr ⟨hgz, hm.2⟩⟩
  · rcases hcase with ⟨_, _, _, _, htr⟩ | ⟨_, hgcase⟩
    · subst htr
      intro u' t hm
      simp at hm
    · have hgzfd : ∃ q, gz_fetch_decompress w loc (resolved_path w loc cd ++ ".gz")
          (resolved_path w loc cd) force fs = (q, fs', tr) := by
        rcases hgcase with ⟨e, hg, _⟩ | ⟨hg, _⟩
        · exact ⟨Except.error e, hg⟩
        · exact ⟨Except.ok (), hg⟩
      obtain ⟨q, hg⟩ := hgzfd
      intro u' t hm
      obtain ⟨hfetch, _⟩ := gzfd_trace w loc (resolved_path w loc cd ++ ".gz")
        (resolved_path w loc cd) force fs q fs' tr hg
      obtain ⟨h1, h2⟩ := hfetch u' t hm
      exact ⟨h1, Or.inl ⟨hgz, h2⟩⟩

/-- With `force = false` and the final file present, the gzip branch skips the
fetch and the decompression entirely and goes straight to the validation. -/
lemma get_location_gz_skip (w : World) (loc cd : String) (fs : FS)
    (hh : pyStartsWith loc "http" = true)
    (hgzb : ((get_stem_extension (lastSegment loc)).2 == ".gz") = true)
    (hex : fs.fileExists (resolved_path w loc cd) = true) :
    get_location w loc false cd fs =
      (finalCheck fs (resolved_path w loc cd), fs, []) := by
  simp only [get_location]
  rw [if_pos hh, if_pos hgzb, gz_transient_eq w loc cd hgzb, gz_final_eq w loc cd hgzb]
  rw [hex]
  simp

/-- With `force = false` and the final file present and non-empty, the plain
remote branch skips the download and returns the cached path. -/
lemma get_location_nongz_hit (w : World) (loc cd : String) (fs : FS)
    (hh : pyStartsWith loc "http" = true)
    (hgzb : ((get_stem_extension (lastSegment loc)).2 == ".gz") = false)
    (hex : fs.fileExists (resolved_path w loc cd) = true)
    (hsz : fs.size (resolved_path w loc cd) ≠ 0) :
    get_location w loc false cd fs = (Except.ok (resolved_path w loc cd), fs, []) := by
  simp only [get_location]
  rw [if_pos hh, if_neg (by simp [hgzb]), nongz_final_eq w loc cd hgzb]
  have hcd : cached_download w loc (resolved_path w loc cd) false fs =
      (Except.ok (), fs, []) := by
    unfold cached_download
    have hc : ((!fs.fileExists (resolved_path w loc cd) ||
        fs.size (resolved_path w loc cd) == 0) || false) = false := by
      rw [hex]
      simp [hsz]
    rw [if_neg (by simp [hc])]
    rw [(downloadCheck_eq_ok fs _).mpr ⟨hex, hsz⟩]
  rw [hcd]
  show (finalCheck fs (resolved_path w loc cd), fs, ([] : List Ev)) = _
  rw [(finalCheck_eq_ok fs _ _).mpr ⟨rfl, hex, hsz⟩]

/-- A second resolution of a URL whose final cached file is present and
non-empty is a pure cache hit: no events, no filesystem change. -/
lemma get_location_cache_hit (w : World) (loc cd : String) (fs : FS)
    (hh : pyStartsWith loc "http" = true)
    (hex : fs.fileExists (resolved_path w loc cd) = true)
    (hsz : fs.size (resolved_path w loc cd) ≠ 0) :
    get_location w loc false cd fs = (Except.ok (resolved_path w loc cd), fs, []) := by
  by_cases hgzb : ((get_stem_extension (lastSegment loc)).2 == ".gz") = true
  · rw [get_location_gz_skip w loc cd fs hh hgzb hex]
    rw [(finalCheck_eq_ok fs _ _).mpr ⟨rfl, hex, hsz⟩]
  · exact get_location_nongz_hit w loc cd fs hh (Bool.eq_false_iff.mpr hgzb) hex hsz

/-- With `force = true`, `gz_fetch_decompress` always starts with a fetch of
the transient path. -/
lemma gzfd_force_trace (w : World) (loc gzp lp : String) (fs : FS)
    (r : Except Err Unit) (fs2 : FS) (tr2 : List Ev)
    (h : gz_fetch_decompress w loc gzp lp true fs = (r, fs2, tr2)) :
    ∃ rest, tr2 = Ev.fetch loc gzp :: rest := by
  unfold gz_fetch_decompress at h
  split at h
  · rename_i e' fsd trd heq
    injection h with h1 h2
    injection h2 with h2 h3
    rw [← h3, cached_download_force_trace w loc gzp fs _ _ _ heq]
    exact ⟨[], rfl⟩
  · rename_i val fsd trd heq
    have htr : tr2 = trd ++ [Ev.decompress gzp lp] := by
      split at h
      · injection h with h1 h2
        injection h2 with h2 h3
        exact h3.symm
      · simp only [FS.fileExists_write_self, if_true] at h
        injection h with h1 h2
        injection h2 with h2 h3
        exact h3.symm
    rw [htr, cached_download_force_trace w loc gzp fs _ _ _ heq]
    exact ⟨[Ev.decompress gzp lp], rfl⟩

/-! ## Concrete worlds for witnesses and counterexamples -/

/-- A world whose downloads succeed with one byte and whose gzip decoding is
the identity. -/
def wOk : World :=
  { md5 := fun _ => "h", retrieve := fun _ => some [1], gunzip := fun b => Except.ok b }

/-- A world whose downloads fail. -/
def wFail : World :=
  { md5 := fun _ => "h", retrieve := fun _ => none, gunzip := fun b => Except.ok b }

/-- A world whose downloads succeed but deliver an empty body. -/
def wEmpty : World :=
  { md5 := fun _ => "h", retrieve := fun _ => some [], gunzip := fun b => Except.ok b }

/-- A world whose downloads succeed but whose gzip decoding raises before
writing anything. -/
def wBadGz : World :=
  { md5 := fun _ => "h", retrieve := fun _ => some [5], gunzip := fun _ => Except.error [] }

/-- Witness for C1 at a concrete successful resolution. -/
theorem spec_C1_witness :
    (FS.mk [("c/a-h.pt", [1])]).fileExists "c/a-h.pt" = true ∧
    (FS.mk [("c/a-h.pt", [1])]).size "c/a-h.pt" ≠ 0 :=
  (spec_C1 wOk "http://x/a.pt" false "c" (FS.mk [])
    (Except.ok "c/a-h.pt") (FS.mk [("c/a-h.pt", [1])])
    [Ev.fetch "http://x/a.pt" "c/a-h.pt"] rfl).1 "c/a-h.pt" rfl

/-! ## Correctness of `rfind` and claim C3 -/

lemma rfindGo_no_occ (c : Char) (cs : List Char) :
    ∀ (i : Nat) (acc : Int), (∀ x ∈ cs, x ≠ c) → rfindGo cs c i acc = acc := by
  induction cs with
  | nil =>
    intro i acc _
    rfl
  | cons x xs ih =>
    intro i acc h
    simp only [rfindGo]
    rw [if_neg (by simp [h x (List.mem_cons_self x xs)])]
    exact ih (i + 1) acc (fun y hy => h y (List.mem_cons_of_mem x hy))

lemma rfindGo_last (c : Char) (cs : List Char) : ∀ (j : Nat),
    cs[j]? = some c →
    (∀ k, k < cs.length → j < k → cs[k]? ≠ some c) →
    ∀ (i : Nat) (acc : Int), rfindGo cs c i acc = ((i + j : Nat) : Int) := by
  induction cs with
  | nil =>
    intro j hj
    simp at hj
  | cons x xs ih =>
    intro j hj hlast i acc
    cases j with
    | zero =>
      simp at hj
      subst hj
      simp only [rfindGo]
      rw [if_pos (by simp)]
      rw [rfindGo_no_occ x xs (i + 1) (i : Int) ?hno]
      · simp
      case hno =>
        intro y hy hyc
        subst hyc
        obtain ⟨k, hky⟩ := List.mem_iff_getElem?.mp hy
        obtain ⟨hklen, _⟩ := List.getElem?_eq_some.mp hky
        exact hlast (k + 1) (by simpa using Nat.succ_lt_succ hklen)
          (Nat.succ_pos k) (by simpa using hky)
    | succ j' =>
      have hj' : xs[j']? = some c := by simpa using hj
      have hlast' : ∀ k, k < xs.length → j' < k → xs[k]? ≠ some c := by
        intro k hk hjk hkc
        exact hlast (k + 1) (by simpa using Nat.succ_lt_succ hk)
          (Nat.succ_lt_succ hjk) (by simpa using hkc)
      simp only [rfindGo]
      rw [ih j' hj' hlast']
      congr 1
      omega

lemma rfind_last (s : String) (c : Char) (j : Nat)
    (hj : s.data[j]? = some c)
    (hlast : ∀ k, k < s.data.length → j < k → s.data[k]? ≠ some c) :
    rfind s c = (j : Int) := by
  unfold rfind
  rw [rfindGo_last c s.data j hj hlast 0 (-1)]
  simp

lemma rfind_no (s : String) (c : Char) (h : ∀ x ∈ s.data, x ≠ c) :
    rfind s c = -1 := by
  unfold rfind
  exact rfindGo_no_occ c s.data 0 (-1) h

/-- C3.  `get_stem_extension` splits at the index of the last `.` when that
index is positive (`name[:i]`, `name[i:]`), and returns the whole name with
extension `.dat` when there is no `.` at all or the last `.` sits at index
0. -/
theorem spec_C3 (name : String) :
    ((∀ x ∈ name.data, x ≠ '.') → get_stem_extension name = (name, ".dat")) ∧
    (∀ i : Nat, name.data[i]? = some '.' →
      (∀ k, k < name.data.length → i < k → name.data[k]? ≠ some '.') →
      ((0 < i → get_stem_extension name = (strTake name i, strDrop name i)) ∧
       (i = 0 → get_stem_extension name = (name, ".dat")))) := by
  constructor
  · intro h
    simp only [get_stem_extension]
    rw [rfind_no name '.' h]
    rw [if_neg (by decide)]
  · intro i hi hlast
    have hr := rfind_last name '.' i hi hlast
    constructor
    · intro hpos
      simp only [get_stem_extension]
      rw [hr, if_pos (by exact_mod_cast hpos)]
      rw [Int.toNat_natCast]
    · intro h0
      subst h0
      simp only [get_stem_extension]
      rw [hr]
      rw [if_neg (by simp)]

/-- Witness for C3: `"a.b"` splits at its last dot, index 1. -/
theorem spec_C3_witness :
    get_stem_extension "a.b" = (strTake "a.b" 1, strDrop "a.b" 1) :=
  ((spec_C3 "a.b").2 1 (by decide) (by decide)).1 (by decide)

/-- C2.  Cache-key derivation is a pure function of the URL string: the
triple is `(stem, extension, md5(url))` for the full URL, any successful
resolution returns exactly `{cacheDir}/{stem}-{hash}{extension}` (so two runs
from any two filesystem states agree), and every fetch of the run targets
that path — with a literal `.gz` appended for the transient file of gzip
sources. -/
theorem spec_C2 (w : World) (u cd : String) (f₁ f₂ : Bool) (fs₁ fs₂ : FS)
    (r₁ r₂ : Except Err String) (s₁ s₂ : FS) (t₁ t₂ : List Ev)
    (hh : pyStartsWith u "http" = true)
    (h₁ : get_location w u f₁ cd fs₁ = (r₁, s₁, t₁))
    (h₂ : get_location w u f₂ cd fs₂ = (r₂, s₂, t₂)) :
    deriveKey w.md5 u =
      ((get_stem_extension (lastSegment u)).1, (get_stem_extension (lastSegment u)).2,
        w.md5 u) ∧
    (∀ p, r₁ = Except.ok p → p = get_cached_path (finalFileName w.md5 u) cd) ∧
    (∀ p q, r₁ = Except.ok p → r₂ = Except.ok q → p = q) ∧
    (∀ u' t, Ev.fetch u' t ∈ t₁ → u' = u ∧
      ((((get_stem_extension (lastSegment u)).2 == ".gz") = true ∧
        t = get_cached_path (finalFileName w.md5 u) cd ++ ".gz") ∨
       (((get_stem_extension (lastSegment u)).2 == ".gz") = false ∧
        t = get_cached_path (finalFileName w.md5 u) cd))) := by
  refine ⟨rfl, ?_, ?_, ?_⟩
  · intro p hp
    rw [hp] at h₁
    exact (get_location_ok_facts w u f₁ cd fs₁ p s₁ t₁ h₁).2.2 hh
  · intro p q hp hq
    rw [hp] at h₁
    rw [hq] at h₂
    have e₁ := (get_location_ok_facts w u f₁ cd fs₁ p s₁ t₁ h₁).2.2 hh
    have e₂ := (get_location_ok_facts w u f₂ cd fs₂ q s₂ t₂ h₂).2.2 hh
    rw [e₁, e₂]
  · exact get_location_fetch_targets w u f₁ cd fs₁ r₁ s₁ t₁ h₁

/-- Witness for C2 at a concrete successful resolution. -/
theorem spec_C2_witness :
    "c/a-h.pt" = get_cached_path (finalFileName wOk.md5 "http://x/a.pt") "c" :=
  (spec_C2 wOk "http://x/a.pt" "c" false false (FS.mk []) (FS.mk [])
    (Except.ok "c/a-h.pt") (Except.ok "c/a-h.pt")
    (FS.mk [("c/a-h.pt", [1])]) (FS.mk [("c/a-h.pt", [1])])
    [Ev.fetch "http://x/a.pt" "c/a-h.pt"] [Ev.fetch "http://x/a.pt" "c/a-h.pt"]
    (by decide) rfl rfl).2.1 "c/a-h.pt" rfl

/-- C4.  For a URL whose last segment has extension `.gz`, the split is
re-applied to the stem: the final cached filename is
`{innerStem}-{hash}{innerExtension}` (no `.gz` suffix), the returned path is
that filename inside the cache directory, and every fetch targets the
transient path, which is the final path with `.gz` appended. -/
theorem spec_C4 (w : World) (u : String) (f : Bool) (cd : String) (fs : FS)
    (r : Except Err String) (fs' : FS) (tr : List Ev)
    (hh : pyStartsWith u "http" = true)
    (hgz : (get_stem_extension (lastSegment u)).2 = ".gz")
    (h : get_location w u f cd fs = (r, fs', tr)) :
    finalFileName w.md5 u =
      (get_stem_extension ((get_stem_extension (lastSegment u)).1)).1 ++ "-" ++
        w.md5 u ++ (get_stem_extension ((get_stem_extension (lastSegment u)).1)).2 ∧
    (∀ p, r = Except.ok p → p = get_cached_path (finalFileName w.md5 u) cd) ∧
    (∀ u' t, Ev.fetch u' t ∈ tr →
      u' = u ∧ t = get_cached_path (finalFileName w.md5 u) cd ++ ".gz") := by
  have hgzb : ((get_stem_extension (lastSegment u)).2 == ".gz") = true := by
    simp [hgz]
  refine ⟨gz_filename_eq w u hgzb, ?_, ?_⟩
  · intro p hp
    rw [hp] at h
    exact (get_location_ok_facts w u f cd fs p fs' tr h).2.2 hh
  · intro u' t hm
    obtain ⟨h1, hcase⟩ := get_location_fetch_targets w u f cd fs r fs' tr h u' t hm
    rcases hcase with ⟨_, h2⟩ | ⟨hfalse, _⟩
    · exact ⟨h1, h2⟩
    · rw [hgzb] at hfalse
      cases hfalse

/-- Witness for C4 at a concrete gzip resolution. -/
theorem spec_C4_witness :
    "http://x/a.pt.gz" = "http://x/a.pt.gz" ∧
    "c/a-h.pt.gz" = get_cached_path (finalFileName wOk.md5 "http://x/a.pt.gz") "c" ++ ".gz" :=
  (spec_C4 wOk "http://x/a.pt.gz" false "c" (FS.mk [])
    (Except.ok "c/a-h.pt") (FS.mk [("c/a-h.pt", [1])])
    [Ev.fetch "http://x/a.pt.gz" "c/a-h.pt.gz",
      Ev.decompress "c/a-h.pt.gz" "c/a-h.pt"]
    (by decide) (by decide) rfl).2.2 "http://x/a.pt.gz" "c/a-h.pt.gz" (by decide)

/-- C5.  Idempotence: after a successful resolution with `force = false`, a
second resolution of the same URL from the resulting filesystem performs no
events at all (zero network fetches, no decompression), changes nothing, and
returns the same path. -/
theorem spec_C5 (w : World) (u cd : String) (fs : FS) (p : String) (fs₁ : FS)
    (tr₁ : List Ev)
    (hh : pyStartsWith u "http" = true)
    (h₁ : get_location w u false cd fs = (Except.ok p, fs₁, tr₁)) :
    get_location w u false cd fs₁ = (Except.ok p, fs₁, []) := by
  obtain ⟨hex, hsz, hp⟩ := get_location_ok_facts w u false cd fs p fs₁ tr₁ h₁
  have hpr := hp hh
  subst hpr
  exact get_location_cache_hit w u cd fs₁ hh hex hsz

/-- Witness for C5 at a concrete first resolution. -/
theorem spec_C5_witness :
    get_location wOk "http://x/a.pt" false "c" (FS.mk [("c/a-h.pt", [1])]) =
      (Except.ok "c/a-h.pt", FS.mk [("c/a-h.pt", [1])], [])  :=
  spec_C5 wOk "http://x/a.pt" "c" (FS.mk []) "c/a-h.pt"
    (FS.mk [("c/a-h.pt", [1])]) [Ev.fetch "http://x/a.pt" "c/a-h.pt"]
    (by decide) rfl

/-- C6.  Force bypass: with `force = true` a remote resolution always begins
with a network fetch of the URL, even when a valid cached file exists; and in
the gzip branch a successful forced resolution also re-runs the decompression
step. -/
theorem spec_C6 (w : World) (u cd : String) (fs : FS)
    (r : Except Err String) (fs' : FS) (tr : List Ev)
    (hh : pyStartsWith u "http" = true)
    (h : get_location w u true cd fs = (r, fs', tr)) :
    (∃ t rest, tr = Ev.fetch u t :: rest) ∧
    ((get_stem_extension (lastSegment u)).2 = ".gz" →
      ∀ p, r = Except.ok p → ∃ g, Ev.decompress g p ∈ tr) := by
  rcases get_location_cases w u true cd fs _ _ _ h with
    ⟨hlocal, _⟩ | ⟨_, hgz, hcase⟩ | ⟨_, hgz, hcase⟩
  · rw [hlocal] at hh
    cases hh
  · constructor
    · have hcd : ∃ q, cached_download w u (resolved_path w u cd) true fs =
          (q, fs', tr) := by
        rcases hcase with ⟨e, hcd, _⟩ | ⟨hcd, _⟩
        · exact ⟨Except.error e, hcd⟩
        · exact ⟨Except.ok (), hcd⟩
      obtain ⟨q, hcd⟩ := hcd
      rw [cached_download_force_trace w u (resolved_path w u cd) fs q fs' tr hcd]
      exact ⟨resolved_path w u cd, [], rfl⟩
    · intro hgzP p hp
      simp [hgzP] at hgz
  · constructor
    · rcases hcase with ⟨_, hforce, _⟩ | ⟨_, hgcase⟩
      · cases hforce
      · have hg : ∃ q, gz_fetch_decompress w u (resolved_path w u cd ++ ".gz")
            (resolved_path w u cd) true fs = (q, fs', tr) := by
          rcases hgcase with ⟨e, hg, _⟩ | ⟨hg, _⟩
          · exact ⟨Except.error e, hg⟩
          · exact ⟨Except.ok (), hg⟩
        obtain ⟨q, hg⟩ := hg
        obtain ⟨rest, htr⟩ := gzfd_force_trace w u (resolved_path w u cd ++ ".gz")
          (resolved_path w u cd) fs q fs' tr hg
        exact ⟨resolved_path w u cd ++ ".gz", rest, htr⟩
    · intro _ p hp
      rcases hcase with ⟨_, hforce, _⟩ | ⟨_, ⟨e, _, hr⟩ | ⟨hg, hr⟩⟩
      · cases hforce
      · rw [hp] at hr
        cases hr
      · rw [hp] at hr
        obtain ⟨hq, _, _⟩ := (finalCheck_eq_ok _ _ _).mp hr.symm
        obtain ⟨fsd, trd, b, _, _, _, htr⟩ := gzfd_ok w u
          (resolved_path w u cd ++ ".gz") (resolved_path w u cd) true fs () fs' tr hg
        rw [hq, htr]
        exact ⟨resolved_path w u cd ++ ".gz", by simp⟩

/-- Witness for C6: a forced resolution on a warm cache still fetches. -/
theorem spec_C6_witness :
    ∃ t rest, [Ev.fetch "http://x/a.pt" "c/a-h.pt"] =
      Ev.fetch "http://x/a.pt" t :: rest :=
  (spec_C6 wOk "http://x/a.pt" "c" (FS.mk [("c/a-h.pt", [9])])
    (Except.ok "c/a-h.pt") (FS.mk [("c/a-h.pt", [1])])
    [Ev.fetch "http://x/a.pt" "c/a-h.pt"] (by decide) rfl).1

/-- Counterexample to C7 as stated: with a leftover transient `.gz` file and
a warm final file already in the cache, a `force = false` resolution succeeds
as a pure cache hit and the transient file survives it. -/
def fsStale : FS := FS.mk [("c/a-h.pt", [1]), ("c/a-h.pt.gz", [2])]

theorem spec_C7_cex :
    (get_location wOk "http://x/a.pt.gz" false "c" fsStale).1 =
      Except.ok "c/a-h.pt" ∧
    ((get_location wOk "http://x/a.pt.gz" false "c" fsStale).2.1).fileExists
      "c/a-h.pt.gz" = true :=
  ⟨rfl, rfl⟩

/-- C7 (amended).  Whenever the gzip fetch/decompress path actually runs
(final file initially absent, or `force` set), a successful resolution leaves
no transient `.gz` file behind; a pre-existing transient does survive a pure
cache hit. -/
theorem spec_C7 (w : World) (u : String) (force : Bool) (cd : String) (fs : FS)
    (p : String) (fs' : FS) (tr : List Ev)
    (hh : pyStartsWith u "http" = true)
    (hgz : (get_stem_extension (lastSegment u)).2 = ".gz")
    (hrun : fs.fileExists (resolved_path w u cd) = false ∨ force = true)
    (h : get_location w u force cd fs = (Except.ok p, fs', tr)) :
    fs'.fileExists (resolved_path w u cd ++ ".gz") = false := by
  have hgzb : ((get_stem_extension (lastSegment u)).2 == ".gz") = true := by
    simp [hgz]
  rcases get_location_cases w u force cd fs _ _ _ h with
    ⟨hlocal, _⟩ | ⟨_, hg, _⟩ | ⟨_, _, hcase⟩
  · rw [hlocal] at hh
    cases hh
  · rw [hgzb] at hg
    cases hg
  · rcases hcase with ⟨hex, hforce, _, _, _⟩ | ⟨_, ⟨e, _, hr⟩ | ⟨hg, hr⟩⟩
    · rcases hrun with hf | hf
      · rw [hex] at hf
        cases hf
      · rw [hforce] at hf
        cases hf
    · cases hr
    · obtain ⟨fsd, trd, b, hcd, hgun, hfs2, _⟩ := gzfd_ok w u
        (resolved_path w u cd ++ ".gz") (resolved_path w u cd) force fs () fs' tr hg
      rw [hfs2]
      exact FS.fileExists_unlink_self _ _

/-- Witness for the amended C7 at a concrete cold-cache gzip resolution. -/
theorem spec_C7_witness :
    (FS.mk [("c/a-h.pt", [1])]).fileExists
      (resolved_path wOk "http://x/a.pt.gz" "c" ++ ".gz") = false :=
  spec_C7 wOk "http://x/a.pt.gz" false "c" (FS.mk []) "c/a-h.pt"
    (FS.mk [("c/a-h.pt", [1])])
    [Ev.fetch "http://x/a.pt.gz" "c/a-h.pt.gz",
      Ev.decompress "c/a-h.pt.gz" "c/a-h.pt"]
    (by decide) (by decide) (Or.inl (by decide)) rfl

/-- C8 (amended).  Barring a `DownloadError`, `cached_download` raises its
`IOError` naming the target exactly when, after the attempt was skipped or
performed, the target is absent or empty; it fires for a fresh download that
silently produced an empty file.  The skip path, however, only ever runs for
an existing non-empty file (emptiness triggers a re-download attempt), so the
check can never fire with no download attempted. -/
theorem spec_C8 (w : World) (url p : String) (force : Bool) (fs : FS)
    (r : Except Err Unit) (fs' : FS) (tr : List Ev)
    (h : cached_download w url p force fs = (r, fs', tr)) :
    (r ≠ Except.error (Err.downloadError url) →
      (r = Except.error (Err.errorReading p) ↔
        (fs'.fileExists p = false ∨ fs'.size p = 0))) ∧
    (tr = [] → fs.fileExists p = true ∧ fs.size p ≠ 0 ∧ r = Except.ok ()) := by
  rcases cached_download_spec w url p force fs r fs' tr h with
    ⟨hfs, htr, hr, hex, hsz, _⟩ | ⟨htr, ⟨_, hfs, hr⟩ | ⟨b, _, hfs, hr⟩⟩
  · subst hfs
    constructor
    · intro _
      constructor
      · intro he
        rw [hr] at he
        cases he
      · intro hm
        exfalso
        rcases hm with hm | hm
        · rw [hex] at hm
          cases hm
        · exact hsz hm
    · intro _
      exact ⟨hex, hsz, hr⟩
  · constructor
    · intro hne
      exact absurd hr hne
    · intro htr0
      rw [htr] at htr0
      cases htr0
  · constructor
    · intro _
      rw [hr]
      constructor
      · intro he
        exact ((downloadCheck_eq_error fs' p _).mp he).2
      · intro hm
        exact (downloadCheck_eq_error fs' p _).mpr ⟨rfl, hm⟩
    · intro htr0
      rw [htr] at htr0
      cases htr0

/-- Counterexample to C8's second scenario as stated: with an empty
pre-existing local file, a download IS attempted (the trace records the
fetch), and the failure raised here is the `DownloadError`, not the
missing-file `IOError` of a skipped attempt. -/
theorem spec_C8_cex :
    (cached_download wFail "u" "p" false (FS.mk [("p", [])])).2.2 =
      [Ev.fetch "u" "p"] ∧
    (cached_download wFail "u" "p" false (FS.mk [("p", [])])).1 =
      Except.error (Err.downloadError "u") :=
  ⟨rfl, rfl⟩

/-- Witness for the amended C8: a fresh download that delivers an empty body
makes the check fire. -/
theorem spec_C8_witness :
    (cached_download wEmpty "u" "p" false (FS.mk [])).1 =
      Except.error (Err.errorReading "p") :=
  ((spec_C8 wEmpty "u" "p" false (FS.mk [])
      (cached_download wEmpty "u" "p" false (FS.mk [])).1
      (cached_download wEmpty "u" "p" false (FS.mk [])).2.1
      (cached_download wEmpty "u" "p" false (FS.mk [])).2.2 rfl).1
    (by decide)).mpr (by decide)

/-- The fetch trace of `cached_download` when the download condition holds. -/
lemma cached_download_fetch_trace (w : World) (url p : String) (force : Bool)
    (fs : FS)
    (hc : ((!fs.fileExists p || fs.size p == 0) || force) = true) :
    (cached_download w url p force fs).2.2 = [Ev.fetch url p] := by
  unfold cached_download
  rw [if_pos hc]
  cases w.retrieve url <;> rfl

/-- C9.  For a gzip-wrapped URL with `force = false`, the cache-hit test
checks only existence: an existing but empty final file causes the resolver
to skip both fetch and decompression (empty trace, unchanged filesystem) and
raise the missing-file `IOError` on the final path.  In the non-gzip branch,
by contrast, an existing empty cached file triggers a re-download. -/
theorem spec_C9 (w : World) (u cd : String) (fs : FS)
    (hh : pyStartsWith u "http" = true)
    (hex : fs.fileExists (resolved_path w u cd) = true)
    (hsz : fs.size (resolved_path w u cd) = 0) :
    ((get_stem_extension (lastSegment u)).2 = ".gz" →
      get_location w u false cd fs =
        (Except.error (Err.cannotRead (resolved_path w u cd)), fs, [])) ∧
    ((get_stem_extension (lastSegment u)).2 ≠ ".gz" →
      ∃ rest, (get_location w u false cd fs).2.2 =
        Ev.fetch u (resolved_path w u cd) :: rest) := by
  constructor
  · intro hgz
    have hgzb : ((get_stem_extension (lastSegment u)).2 == ".gz") = true := by
      simp [hgz]
    rw [get_location_gz_skip w u cd fs hh hgzb hex]
    rw [(finalCheck_eq_error fs _ _).mpr ⟨rfl, Or.inr hsz⟩]
  · intro hgz
    have hgzb : ((get_stem_extension (lastSegment u)).2 == ".gz") = false :=
      beq_eq_false_iff_ne.mpr hgz
    simp only [get_location]
    rw [if_pos hh, if_neg (by simp [hgzb]), nongz_final_eq w u cd hgzb]
    have hcond : ((!fs.fileExists (resolved_path w u cd) ||
        fs.size (resolved_path w u cd) == 0) || false) = true := by
      rw [hex, hsz]
      simp
    have htr := cached_download_fetch_trace w u (resolved_path w u cd) false fs hcond
    rcases hcd : cached_download w u (resolved_path w u cd) false fs with ⟨q, fs2, tr2⟩
    rw [hcd] at htr
    cases q with
    | error e => exact ⟨[], htr⟩
    | ok val => exact ⟨[], htr⟩

/-- Witness for C9 in the gzip branch: an existing empty final file gives the
missing-file error with no fetch and no decompression. -/
theorem spec_C9_witness :
    get_location wOk "http://x/a.pt.gz" false "c" (FS.mk [("c/a-h.pt", [])]) =
      (Except.error (Err.cannotRead (resolved_path wOk "http://x/a.pt.gz" "c")),
        FS.mk [("c/a-h.pt", [])], []) :=
  (spec_C9 wOk "http://x/a.pt.gz" "c" (FS.mk [("c/a-h.pt", [])])
    (by decide) (by decide) (by decide)).1 (by decide)

/-- C10.  If gzip decoding fails mid-copy, the error propagates as-is (not as
`DownloadError` and not as the assertion failure): the transient `.gz` file is
not deleted, the destination file has already been created holding the
partial bytes, and — because the gzip cache-hit test checks only existence —
a subsequent `force = false` resolution performs no events at all. -/
theorem spec_C10 (w : World) (u cd : String) (fs : FS) (force : Bool)
    (fsd : FS) (trd : List Ev) (pb : Bytes)
    (hh : pyStartsWith u "http" = true)
    (hgz : (get_stem_extension (lastSegment u)).2 = ".gz")
    (hrun : fs.fileExists (resolved_path w u cd) = false ∨ force = true)
    (hcd : cached_download w u (resolved_path w u cd ++ ".gz") force fs =
      (Except.ok (), fsd, trd))
    (hgun : w.gunzip ((fsd.lookup (resolved_path w u cd ++ ".gz")).getD []) =
      Except.error pb) :
    get_location w u force cd fs =
      (Except.error Err.gunzipFailure, fsd.write (resolved_path w u cd) pb,
        trd ++ [Ev.decompress (resolved_path w u cd ++ ".gz") (resolved_path w u cd)]) ∧
    (fsd.write (resolved_path w u cd) pb).fileExists
      (resolved_path w u cd ++ ".gz") = true ∧
    (fsd.write (resolved_path w u cd) pb).lookup (resolved_path w u cd) = some pb ∧
    (get_location w u false cd (fsd.write (resolved_path w u cd) pb)).2.2 = [] := by
  have hgzb : ((get_stem_extension (lastSegment u)).2 == ".gz") = true := by
    simp [hgz]
  have hgzfd : gz_fetch_decompress w u (resolved_path w u cd ++ ".gz")
      (resolved_path w u cd) force fs =
      (Except.error Err.gunzipFailure, fsd.write (resolved_path w u cd) pb,
        trd ++ [Ev.decompress (resolved_path w u cd ++ ".gz") (resolved_path w u cd)]) := by
    simp only [gz_fetch_decompress, hcd, hgun]
  refine ⟨?_, ?_, ?_, ?_⟩
  · simp only [get_location]
    rw [if_pos hh, if_pos hgzb, gz_transient_eq w u cd hgzb, gz_final_eq w u cd hgzb]
    have hcond : (!fs.fileExists (resolved_path w u cd) || force) = true :=
      (bool_not_or_eq_true _ _).mpr hrun
    rw [if_pos hcond, hgzfd]
  · have hne : resolved_path w u cd ++ ".gz" ≠ resolved_path w u cd :=
      fun hcontra => self_ne_append_gz _ hcontra.symm
    rw [FS.fileExists_write_ne _ _ _ _ hne]
    exact (cached_download_ok w u _ force fs () fsd trd hcd).1
  · rw [FS.lookup_write]
    simp
  · rw [get_location_gz_skip w u cd _ hh hgzb (FS.fileExists_write_self fsd _ pb)]

/-- Witness for C10 at a concrete failing gzip decode. -/
theorem spec_C10_witness :
    ((FS.mk [("c/a-h.pt.gz", [5])]).write
        (resolved_path wBadGz "http://x/a.pt.gz" "c") []).fileExists
      (resolved_path wBadGz "http://x/a.pt.gz" "c" ++ ".gz") = true :=
  (spec_C10 wBadGz "http://x/a.pt.gz" "c" (FS.mk []) false
    (FS.mk [("c/a-h.pt.gz", [5])]) [Ev.fetch "http://x/a.pt.gz" "c/a-h.pt.gz"] []
    (by decide) (by decide) (Or.inl (by decide)) rfl rfl).2.1
